import Mathlib

/-!
Verification of the tilemap engine and physics/collision subsystem of the
Pygame platformer (scripts/Tilemap.py and scripts/Entities.py), against its
natural-language specification.

Modelling conventions (shallow embedding):
* Python floats are modelled as rationals (`ℚ`); all numeric behaviour the
  claims depend on (exact comparisons, `min`, floor division, truncation)
  is faithfully reproduced on `ℚ`.
* `pygame.Rect` stores integer coordinates; constructing a rect from float
  arguments truncates them toward zero (Python `int()` semantics), modelled
  by `ratTrunc`.
* Python dicts are modelled as association lists (insertion ordered, keys
  unique); the grid key string "x;y" is in bijection with the integer pair
  `(x, y)`, so the grid is keyed by `ℤ × ℤ` directly and the string form is
  produced only at the persistence boundary.
-/

namespace Platformer

/-- Truncation toward zero, the conversion Python's `int()` (and the
`pygame.Rect` constructor) applies to a float. -/
def ratTrunc (q : ℚ) : ℤ := if 0 ≤ q then ⌊q⌋ else ⌈q⌉

theorem ratTrunc_intCast (n : ℤ) : ratTrunc (n : ℚ) = n := by
  unfold ratTrunc
  split <;> simp

theorem floor_le_ratTrunc (q : ℚ) : ⌊q⌋ ≤ ratTrunc q := by
  unfold ratTrunc
  split
  · exact le_refl _
  · exact Int.floor_le_ceil q

theorem ratTrunc_le_ceil (q : ℚ) : ratTrunc q ≤ ⌈q⌉ := by
  unfold ratTrunc
  split
  · exact Int.floor_le_ceil q
  · exact le_refl _

theorem ratTrunc_mono {q q' : ℚ} (h : q ≤ q') : ratTrunc q ≤ ratTrunc q' := by
  unfold ratTrunc
  by_cases h0 : 0 ≤ q
  · have h0' : 0 ≤ q' := le_trans h0 h
    simp only [h0, h0', if_true]
    exact Int.floor_le_floor h
  · by_cases h1 : 0 ≤ q'
    · simp only [h0, h1, if_true, if_false]
      have hq : ⌈q⌉ ≤ 0 := Int.ceil_le.mpr (by exact_mod_cast le_of_lt (lt_of_not_le h0))
      have hq' : 0 ≤ ⌊q'⌋ := Int.floor_nonneg.mpr h1
      omega
    · simp only [h0, h1, if_false]
      exact Int.ceil_le_ceil h

/-- Truncating after adding an integer amount `c ≥ 0` moves the truncation by
at most `c`. -/
theorem ratTrunc_add_int_le (p : ℚ) (c : ℤ) (hc : 0 ≤ c) :
    ratTrunc (p + (c : ℚ)) ≤ ratTrunc p + c := by
  unfold ratTrunc
  by_cases h0 : 0 ≤ p
  · have h1 : 0 ≤ p + (c : ℚ) := by positivity
    simp only [h0, h1, if_true]
    rw [Int.floor_add_int]
  · by_cases h1 : 0 ≤ p + (c : ℚ)
    · simp only [h0, h1, if_true, if_false]
      have : ⌊p + (c : ℚ)⌋ = ⌊p⌋ + c := Int.floor_add_int p c
      have h2 : ⌊p⌋ ≤ ⌈p⌉ := Int.floor_le_ceil p
      omega
    · simp only [h0, h1, if_false]
      rw [Int.ceil_add_int]

theorem ratTrunc_sub_int_le (p : ℚ) (c : ℤ) (hc : 0 ≤ c) :
    ratTrunc p - c ≤ ratTrunc (p - (c : ℚ)) := by
  have := ratTrunc_add_int_le (p - (c : ℚ)) c hc
  rw [sub_add_cancel] at this
  omega

/-- A bounded float displacement gives an equally bounded displacement of the
truncated (rect) coordinate. -/
theorem abs_ratTrunc_add_le (p d : ℚ) (c : ℤ) (hc : 0 ≤ c) (hd : |d| ≤ (c : ℚ)) :
    |ratTrunc (p + d) - ratTrunc p| ≤ c := by
  rcases abs_le.mp hd with ⟨hd1, hd2⟩
  have hup : ratTrunc (p + d) ≤ ratTrunc p + c := by
    have h1 : ratTrunc (p + d) ≤ ratTrunc (p + (c : ℚ)) :=
      ratTrunc_mono (by linarith)
    have h2 := ratTrunc_add_int_le p c hc
    omega
  have hdn : ratTrunc p - c ≤ ratTrunc (p + d) := by
    have h1 : ratTrunc (p - (c : ℚ)) ≤ ratTrunc (p + d) :=
      ratTrunc_mono (by linarith)
    have h2 := ratTrunc_sub_int_le p c hc
    omega
  rw [abs_le]
  omega

/-- The truncated coordinate stays inside the tile cell obtained by floor
division: if `c = ⌊p / ts⌋` then `c * ts ≤ ratTrunc p ≤ (c + 1) * ts`. -/
theorem ratTrunc_cell_bounds (p : ℚ) (ts : ℤ) (hts : 0 < ts) :
    (⌊p / (ts : ℚ)⌋ : ℤ) * ts ≤ ratTrunc p ∧
      ratTrunc p ≤ (⌊p / (ts : ℚ)⌋ + 1) * ts := by
  set c : ℤ := ⌊p / (ts : ℚ)⌋ with hc
  have htsq : (0 : ℚ) < (ts : ℚ) := by exact_mod_cast hts
  have h1 : (c : ℚ) ≤ p / (ts : ℚ) := Int.floor_le _
  have h2 : p / (ts : ℚ) < (c : ℚ) + 1 := Int.lt_floor_add_one _
  have hlow : ((c * ts : ℤ) : ℚ) ≤ p := by
    push_cast
    calc ((c : ℚ) * ts) ≤ (p / ts) * ts := by
          exact mul_le_mul_of_nonneg_right h1 (le_of_lt htsq)
      _ = p := by field_simp
  have hhigh : p ≤ (((c + 1) * ts : ℤ) : ℚ) := by
    push_cast
    calc p = (p / ts) * ts := by field_simp
      _ ≤ ((c : ℚ) + 1) * ts := by
          exact mul_le_mul_of_nonneg_right (le_of_lt h2) (le_of_lt htsq)
  constructor
  · calc (c * ts : ℤ) = ⌊((c * ts : ℤ) : ℚ)⌋ := by rw [Int.floor_intCast]
      _ ≤ ⌊p⌋ := Int.floor_le_floor hlow
      _ ≤ ratTrunc p := floor_le_ratTrunc p
  · calc ratTrunc p ≤ ⌈p⌉ := ratTrunc_le_ceil p
      _ ≤ (c + 1) * ts := Int.ceil_le.mpr (by exact_mod_cast hhigh)

/-! ## Data model

`IRect` is `pygame.Rect`: integer position and size.  `GTile` is a grid
tile record `{type, variant, pos}` with integer grid coordinates; `Tile` is
an off-grid (decoration) record, or an extraction result, whose position is
a float (world) coordinate.  `Tilemap` mirrors `Tilemap.__init__`.
-/

structure IRect where
  x : ℤ
  y : ℤ
  w : ℤ
  h : ℤ
deriving DecidableEq, Repr

/-- The left edge of the rect after setting `rect.right = v` (pygame keeps
the size and moves `x`). -/
def IRect.right (r : IRect) : ℤ := r.x + r.w

def IRect.bottom (r : IRect) : ℤ := r.y + r.h

/-- `pygame.Rect.colliderect`: strict overlap on both axes (touching edges do
not collide, empty rects never collide). -/
def collideRect (a b : IRect) : Bool :=
  decide (a.x < b.x + b.w) && decide (a.x + a.w > b.x) &&
    decide (a.y < b.y + b.h) && decide (a.y + a.h > b.y)

theorem collideRect_iff (a b : IRect) :
    collideRect a b = true ↔
      a.x < b.x + b.w ∧ a.x + a.w > b.x ∧ a.y < b.y + b.h ∧ a.y + a.h > b.y := by
  simp [collideRect, and_assoc]

theorem collideRect_false_iff (a b : IRect) :
    collideRect a b = false ↔
      ¬(a.x < b.x + b.w ∧ a.x + a.w > b.x ∧ a.y < b.y + b.h ∧ a.y + a.h > b.y) := by
  rw [← collideRect_iff]
  cases collideRect a b <;> simp

structure GTile where
  type : String
  variant : ℤ
  pos : ℤ × ℤ
deriving DecidableEq, Repr

structure Tile where
  type : String
  variant : ℤ
  pos : ℚ × ℚ
deriving DecidableEq, Repr

/-- The tilemap state: `tile_size`, the grid dict `{"x;y": record}` (an
insertion-ordered map, keyed here by the integer pair the string encodes),
and the off-grid decoration list. -/
structure Tilemap where
  tile_size : ℤ
  tilemap : List ((ℤ × ℤ) × GTile)
  offgrid_tiles : List Tile
deriving DecidableEq, Repr

/-- PHYSICS_TILES: tile types considered solid. -/
def PHYSICS_TILES : List String := ["grass", "stone"]

/-- AUTOTILE_TYPES: tile types eligible for autotiling. -/
def AUTOTILE_TYPES : List String := ["grass", "stone"]

/-- NEIGHBOR_OFFSET: offsets of the 3×3 block of cells around a position, in
the source's order. -/
def NEIGHBOR_OFFSET : List (ℤ × ℤ) :=
  [(-1, 0), (-1, -1), (0, -1), (1, -1), (1, 0), (0, 0), (-1, 1), (0, 1), (1, 1)]

/-- Tilemap.Tiles_Around: the grid records present at the 9 cells around the
world position `pos` (cell = floor division of the position by the tile
size, Python float `//`). -/
def Tilemap.Tiles_Around (tm : Tilemap) (pos : ℚ × ℚ) : List GTile :=
  let tile_location : ℤ × ℤ :=
    (⌊pos.1 / (tm.tile_size : ℚ)⌋, ⌊pos.2 / (tm.tile_size : ℚ)⌋)
  NEIGHBOR_OFFSET.filterMap fun offset =>
    List.lookup (tile_location.1 + offset.1, tile_location.2 + offset.2) tm.tilemap

/-- The world-space rect of the tile record `t` (used by
Physics_Rects_Around: `pos * tile_size`, size `tile_size × tile_size`). -/
def tileRect (ts : ℤ) (p : ℤ × ℤ) : IRect :=
  ⟨p.1 * ts, p.2 * ts, ts, ts⟩

/-- Tilemap.Physics_Rects_Around: rects of the solid tiles around `pos`. -/
def Tilemap.Physics_Rects_Around (tm : Tilemap) (pos : ℚ × ℚ) : List IRect :=
  (tm.Tiles_Around pos).filterMap fun tile =>
    if tile.type ∈ PHYSICS_TILES then some (tileRect tm.tile_size tile.pos) else none

/-- All solid tile rects of the whole grid (the universe the containment
claims quantify over). -/
def Tilemap.allSolidRects (tm : Tilemap) : List IRect :=
  tm.tilemap.filterMap fun e =>
    if e.2.type ∈ PHYSICS_TILES then some (tileRect tm.tile_size e.2.pos) else none

theorem lookup_mem {α β : Type} [BEq α] [LawfulBEq α] {l : List (α × β)} {k : α} {v : β}
    (h : List.lookup k l = some v) : (k, v) ∈ l := by
  induction l with
  | nil => simp [List.lookup] at h
  | cons e rest ih =>
    rw [List.lookup] at h
    rcases hbe : k == e.1 with _ | _
    · rw [hbe] at h
      exact List.mem_cons_of_mem _ (ih h)
    · rw [hbe] at h
      simp only [Option.some.injEq] at h
      have hk : k = e.1 := eq_of_beq hbe
      cases e
      subst hk
      simp_all

/-- Every rect returned by the spatial query is a solid rect of the grid. -/
theorem physicsRects_subset_allSolid (tm : Tilemap) (pos : ℚ × ℚ) :
    ∀ r ∈ tm.Physics_Rects_Around pos, r ∈ tm.allSolidRects := by
  intro r hr
  unfold Tilemap.Physics_Rects_Around at hr
  rcases List.mem_filterMap.mp hr with ⟨t, ht, hres⟩
  unfold Tilemap.Tiles_Around at ht
  rcases List.mem_filterMap.mp ht with ⟨off, _, hlk⟩
  have hmem := lookup_mem hlk
  unfold Tilemap.allSolidRects
  apply List.mem_filterMap.mpr
  exact ⟨_, hmem, hres⟩

/-- Every rect returned by the spatial query has tile-sized width and
height. -/
theorem physicsRects_size (tm : Tilemap) (pos : ℚ × ℚ) :
    ∀ r ∈ tm.Physics_Rects_Around pos, r.w = tm.tile_size ∧ r.h = tm.tile_size := by
  intro r hr
  unfold Tilemap.Physics_Rects_Around at hr
  rcases List.mem_filterMap.mp hr with ⟨t, _, hres⟩
  split at hres
  · cases hres; exact ⟨rfl, rfl⟩
  · cases hres

/-! ## Physics entity (scripts/Entities.py, PhysicsEntity)

`PhysicsEntity.Update` moves the entity along x, clamps against the solid
rects around it, then does the same along y, then applies gravity and the
vertical-velocity reset.  The per-rect loop body mutates the working
`entity_rect` and writes `pos` back on every collision; that sequential loop
is modelled by a fold over the queried rect list.
-/

structure Collisions where
  up : Bool
  down : Bool
  left : Bool
  right : Bool
deriving DecidableEq, Repr

structure Entity where
  pos : ℚ × ℚ
  size : ℚ × ℚ
  velocity : ℚ × ℚ
  collisions : Collisions
  flip : Bool
  last_movement : ℚ × ℚ
deriving DecidableEq, Repr

/-- PhysicsEntity.Rect: `pygame.Rect(pos[0], pos[1], size[0], size[1])`
(float arguments truncated toward zero). -/
def Entity.Rect (e : Entity) : IRect :=
  ⟨ratTrunc e.pos.1, ratTrunc e.pos.2, ratTrunc e.size.1, ratTrunc e.size.2⟩

/-- State carried through the horizontal collision loop: the working
`entity_rect`, the live `pos[0]`, and the right/left collision flags. -/
structure XState where
  er : IRect
  posx : ℚ
  cright : Bool
  cleft : Bool

/-- One iteration of the horizontal collision loop. -/
def xStep (fmx : ℚ) (s : XState) (r : IRect) : XState :=
  if collideRect s.er r then
    let er1 := if fmx > 0 then { s.er with x := r.x - s.er.w } else s.er
    let cright1 := if fmx > 0 then true else s.cright
    let er2 := if fmx < 0 then { er1 with x := r.x + r.w } else er1
    let cleft1 := if fmx < 0 then true else s.cleft
    ⟨er2, (er2.x : ℚ), cright1, cleft1⟩
  else s

/-- State carried through the vertical collision loop. -/
structure YState where
  er : IRect
  posy : ℚ
  cdown : Bool
  cup : Bool

/-- One iteration of the vertical collision loop. -/
def yStep (fmy : ℚ) (s : YState) (r : IRect) : YState :=
  if collideRect s.er r then
    let er1 := if fmy > 0 then { s.er with y := r.y - s.er.h } else s.er
    let cdown1 := if fmy > 0 then true else s.cdown
    let er2 := if fmy < 0 then { er1 with y := r.y + r.h } else er1
    let cup1 := if fmy < 0 then true else s.cup
    ⟨er2, (er2.y : ℚ), cdown1, cup1⟩
  else s

/-- PhysicsEntity.Update: reset flags, move and resolve along x, then along
y, set flip from the input, record last_movement, apply gravity
(`velocity[1] = min(5, velocity[1] + 0.1)`), and zero the vertical velocity
on a down/up collision.  (The cosmetic animation update is out of scope.) -/
def Entity.Update (e : Entity) (tm : Tilemap) (movement : ℚ × ℚ) : Entity :=
  let frame_movement : ℚ × ℚ :=
    (movement.1 + e.velocity.1, movement.2 + e.velocity.2)
  -- horizontal movement and collision
  let px := e.pos.1 + frame_movement.1
  let pos1 : ℚ × ℚ := (px, e.pos.2)
  let er0 : IRect :=
    ⟨ratTrunc px, ratTrunc e.pos.2, ratTrunc e.size.1, ratTrunc e.size.2⟩
  let sx := (tm.Physics_Rects_Around pos1).foldl (xStep frame_movement.1)
    ⟨er0, px, false, false⟩
  -- vertical movement and collision
  let py := e.pos.2 + frame_movement.2
  let pos3 : ℚ × ℚ := (sx.posx, py)
  let er1 : IRect :=
    ⟨ratTrunc sx.posx, ratTrunc py, ratTrunc e.size.1, ratTrunc e.size.2⟩
  let sy := (tm.Physics_Rects_Around pos3).foldl (yStep frame_movement.2)
    ⟨er1, py, false, false⟩
  let flip1 := if movement.1 > 0 then false else if movement.1 < 0 then true else e.flip
  let vy1 := min 5 (e.velocity.2 + 1/10)
  let vy2 := if sy.cdown || sy.cup then 0 else vy1
  { pos := (sx.posx, sy.posy)
    size := e.size
    velocity := (e.velocity.1, vy2)
    collisions := ⟨sy.cup, sy.cdown, sx.cleft, sx.cright⟩
    flip := flip1
    last_movement := movement }

/-! ## Gravity and terminal velocity (claim C8) -/

/-- A tilemap with no tiles at all: an entity updated against it never has
ground contact. -/
def emptyMap : Tilemap := ⟨16, [], []⟩

/-- Repeated `Update` calls with zero intended movement against the empty
tilemap (free fall). -/
def updateIter : ℕ → Entity → Entity
  | 0, e => e
  | n + 1, e => (updateIter n e).Update emptyMap (0, 0)

theorem physicsRects_emptyMap (pos : ℚ × ℚ) :
    emptyMap.Physics_Rects_Around pos = [] := rfl

theorem update_emptyMap_velocity (e : Entity) :
    (e.Update emptyMap (0, 0)).velocity.2 = min 5 (e.velocity.2 + 1/10) := rfl

theorem update_emptyMap_collisions (e : Entity) :
    (e.Update emptyMap (0, 0)).collisions = ⟨false, false, false, false⟩ := rfl

theorem updateIter_velocity (e : Entity) (n : ℕ) :
    (updateIter (n + 1) e).velocity.2 = min 5 (e.velocity.2 + (n + 1 : ℕ) / 10) := by
  induction n with
  | zero =>
    rw [updateIter, updateIter, update_emptyMap_velocity]
    norm_num
  | succ n ih =>
    rw [updateIter, update_emptyMap_velocity, ih]
    rcases le_or_lt (e.velocity.2 + (n + 1 : ℕ) / 10) 5 with h | h
    · rw [min_eq_right h]
      have : e.velocity.2 + ((n + 1 : ℕ) : ℚ) / 10 + 1 / 10
          = e.velocity.2 + ((n + 1 + 1 : ℕ) : ℚ) / 10 := by
        push_cast
        ring
      rw [this]
    · rw [min_eq_left (le_of_lt h)]
      have h5 : (5 : ℚ) ≤ e.velocity.2 + ((n + 1 + 1 : ℕ) : ℚ) / 10 := by
        push_cast
        push_cast at h
        linarith
      rw [min_eq_left h5, min_eq_left (by norm_num)]

theorem update_velocity_eq (e : Entity) (tm : Tilemap) (mv : ℚ × ℚ) :
    (e.Update tm mv).velocity.2 =
      if ((e.Update tm mv).collisions.down || (e.Update tm mv).collisions.up)
      then 0 else min 5 (e.velocity.2 + 1/10) := rfl

/-- Claim C8: every Update sets `velocity.y` to `min(velocity.y + 0.1, 5)`
after both axis passes and then to `0` exactly when the down or up collision
flag is set; consequently `velocity.y` never exceeds 5 after an Update, and
repeated free-fall Updates (zero movement, no ground contact) drive
`velocity.y` to exactly 5, where it stays. -/
theorem claim_C8 :
    (∀ (e : Entity) (tm : Tilemap) (mv : ℚ × ℚ),
        (e.Update tm mv).velocity.2 =
          if (e.Update tm mv).collisions.down = true ∨ (e.Update tm mv).collisions.up = true
          then 0 else min 5 (e.velocity.2 + 1/10))
    ∧ (∀ (e : Entity) (tm : Tilemap) (mv : ℚ × ℚ), (e.Update tm mv).velocity.2 ≤ 5)
    ∧ (∀ (e : Entity) (n : ℕ), (⌈(5 - e.velocity.2) * 10⌉).toNat + 1 ≤ n →
        (updateIter n e).velocity.2 = 5) := by
  refine ⟨?_, ?_, ?_⟩
  · intro e tm mv
    rw [update_velocity_eq]
    cases hd : (e.Update tm mv).collisions.down <;>
      cases hu : (e.Update tm mv).collisions.up <;> simp [hd, hu]
  · intro e tm mv
    rw [update_velocity_eq]
    split
    · norm_num
    · exact min_le_left _ _
  · intro e n hn
    cases n with
    | zero => omega
    | succ k =>
      rw [updateIter_velocity]
      apply min_eq_left
      have h1 : (⌈(5 - e.velocity.2) * 10⌉ : ℤ) ≤ (k : ℤ) := by
        have h0 := Int.self_le_toNat ⌈(5 - e.velocity.2) * 10⌉
        omega
      have h2 : ((5 : ℚ) - e.velocity.2) * 10 ≤ (k : ℚ) := by
        calc ((5 : ℚ) - e.velocity.2) * 10 ≤ (⌈(5 - e.velocity.2) * 10⌉ : ℚ) :=
              Int.le_ceil _
          _ ≤ (k : ℚ) := by exact_mod_cast h1
      push_cast
      linarith

/-- Witness for claim C8 at a concrete free-falling entity: after 60 steps
from rest the vertical velocity is exactly 5. -/
theorem claim_C8_witness :
    (⌈((5 : ℚ) - (Entity.mk (0, 0) (8, 15) (0, 0) ⟨false, false, false, false⟩
        false (0, 0)).velocity.2) * 10⌉).toNat + 1 ≤ 60
    ∧ (updateIter 60 (Entity.mk (0, 0) (8, 15) (0, 0) ⟨false, false, false, false⟩
        false (0, 0))).velocity.2 = 5 :=
  ⟨by with_unfolding_all decide,
   claim_C8.2.2 _ 60 (by with_unfolding_all decide)⟩

/-! ## Head-on collision with a single tile (claim C7) -/

theorem lookup_singleton {α β : Type} [DecidableEq α] (k k' : α) (v : β) :
    List.lookup k [(k', v)] = if k = k' then some v else none := by
  by_cases h : k = k'
  · simp [List.lookup, h]
  · simp [List.lookup, h, beq_eq_false_iff_ne.mpr h]

/-- Floor division of a position inside cell `c` recovers `c`. -/
theorem floor_cell (c r ts : ℤ) (hts : 0 < ts) (h0 : 0 ≤ r) (h1 : r < ts) :
    ⌊((ts * c + r : ℤ) : ℚ) / (ts : ℚ)⌋ = c := by
  have htsq : (0 : ℚ) < (ts : ℚ) := by exact_mod_cast hts
  have hle : ((c : ℚ)) ≤ ((ts * c + r : ℤ) : ℚ) / (ts : ℚ) := by
    rw [le_div_iff₀ htsq]
    push_cast
    have : (c : ℚ) * ts = ts * c := by ring
    rw [this]
    have hr : (0 : ℚ) ≤ (r : ℚ) := by exact_mod_cast h0
    linarith
  have hlt : ((ts * c + r : ℤ) : ℚ) / (ts : ℚ) < (c : ℚ) + 1 := by
    rw [div_lt_iff₀ htsq]
    push_cast
    have : ((c : ℚ) + 1) * ts = ts * c + ts := by ring
    rw [this]
    have hr : (r : ℚ) < (ts : ℚ) := by exact_mod_cast h1
    linarith
  rw [Int.floor_eq_iff]
  push_cast at hle hlt ⊢
  exact ⟨hle, hlt⟩

/-- The scenario of claim C7: a single solid tile in the cell immediately to
the right of the body's cell. -/
def c7Map (cx cy v : ℤ) (ty : String) : Tilemap :=
  ⟨16, [((cx + 1, cy), ⟨ty, v, (cx + 1, cy)⟩)], []⟩

/-- The body of claim C7: one tile in size, grid-aligned, velocity (5, 0). -/
def c7Body (cx cy : ℤ) : Entity :=
  ⟨(((16 * cx : ℤ) : ℚ), ((16 * cy : ℤ) : ℚ)), (16, 16), (5, 0),
    ⟨false, false, false, false⟩, false, (0, 0)⟩

theorem tilesAround_c7 (cx cy v : ℤ) (ty : String) (pos : ℚ × ℚ)
    (h1 : ⌊pos.1 / ((16 : ℤ) : ℚ)⌋ = cx) (h2 : ⌊pos.2 / ((16 : ℤ) : ℚ)⌋ = cy) :
    (c7Map cx cy v ty).Tiles_Around pos = [⟨ty, v, (cx + 1, cy)⟩] := by
  unfold Tilemap.Tiles_Around c7Map
  simp only []
  rw [h1, h2]
  simp [NEIGHBOR_OFFSET, lookup_singleton, Prod.mk.injEq]

theorem physRects_c7 (cx cy v : ℤ) (ty : String) (hty : ty ∈ PHYSICS_TILES) (pos : ℚ × ℚ)
    (h1 : ⌊pos.1 / ((16 : ℤ) : ℚ)⌋ = cx) (h2 : ⌊pos.2 / ((16 : ℤ) : ℚ)⌋ = cy) :
    (c7Map cx cy v ty).Physics_Rects_Around pos = [⟨(cx + 1) * 16, cy * 16, 16, 16⟩] := by
  unfold Tilemap.Physics_Rects_Around
  rw [tilesAround_c7 cx cy v ty pos h1 h2]
  simp [hty, tileRect, c7Map]

/-- Claim C7: a one-tile body with velocity (5, 0) and zero intended
movement, sitting grid-aligned with a single solid tile immediately to its
right, ends one Update with its right edge exactly on the obstacle's left
edge (`16 * (cx + 1)`) and the right collision flag set. -/
theorem claim_C7 (cx cy v : ℤ) (ty : String) (hty : ty ∈ PHYSICS_TILES) :
    ((c7Body cx cy).Update (c7Map cx cy v ty) (0, 0)).Rect.right = 16 * (cx + 1)
    ∧ ((c7Body cx cy).Update (c7Map cx cy v ty) (0, 0)).collisions.right = true := by
  have hpx : ((16 * cx : ℤ) : ℚ) + 5 = ((16 * cx + 5 : ℤ) : ℚ) := by push_cast; ring
  have hfx : ⌊(((16 * cx : ℤ) : ℚ) + 5) / ((16 : ℤ) : ℚ)⌋ = cx := by
    rw [hpx]; exact floor_cell cx 5 16 (by norm_num) (by norm_num) (by norm_num)
  have hfy : ⌊((16 * cy : ℤ) : ℚ) / ((16 : ℤ) : ℚ)⌋ = cy := by
    rw [show ((16 * cy : ℤ) : ℚ) = ((16 * cy + 0 : ℤ) : ℚ) by push_cast; ring]
    exact floor_cell cy 0 16 (by norm_num) (by norm_num) (by norm_num)
  have hq1 := physRects_c7 cx cy v ty hty (((16 * cx : ℤ) : ℚ) + 5, ((16 * cy : ℤ) : ℚ)) hfx hfy
  have ht1 : ratTrunc (((16 * cx : ℤ) : ℚ) + 5) = 16 * cx + 5 := by
    rw [hpx]; exact ratTrunc_intCast _
  have ht2 : ratTrunc ((16 * cy : ℤ) : ℚ) = 16 * cy := ratTrunc_intCast _
  have ht16 : ratTrunc (16 : ℚ) = 16 := by
    rw [show (16 : ℚ) = ((16 : ℤ) : ℚ) by norm_num]; exact ratTrunc_intCast _
  have hcol : collideRect ⟨16 * cx + 5, 16 * cy, 16, 16⟩ ⟨(cx + 1) * 16, cy * 16, 16, 16⟩ = true := by
    rw [collideRect_iff]; dsimp only; omega
  have h5 : ((5 : ℚ) > 0) := by norm_num
  have h5n : ¬((5 : ℚ) < 0) := by norm_num
  have hxfold : List.foldl (xStep 5)
      ⟨⟨ratTrunc (((16 * cx : ℤ) : ℚ) + 5), ratTrunc ((16 * cy : ℤ) : ℚ),
        ratTrunc (16 : ℚ), ratTrunc (16 : ℚ)⟩, ((16 * cx : ℤ) : ℚ) + 5, false, false⟩
      [⟨(cx + 1) * 16, cy * 16, 16, 16⟩]
      = ⟨⟨(cx + 1) * 16 - 16, 16 * cy, 16, 16⟩, (((cx + 1) * 16 - 16 : ℤ) : ℚ), true, false⟩ := by
    rw [List.foldl_cons, List.foldl_nil]
    rw [ht1, ht2, ht16]
    unfold xStep
    simp [hcol, h5, h5n]
  have hfx2 : ⌊(((cx + 1) * 16 - 16 : ℤ) : ℚ) / ((16 : ℤ) : ℚ)⌋ = cx := by
    rw [show ((cx + 1) * 16 - 16 : ℤ) = 16 * cx + 0 by ring]
    exact floor_cell cx 0 16 (by norm_num) (by norm_num) (by norm_num)
  have hq2 := physRects_c7 cx cy v ty hty
    ((((cx + 1) * 16 - 16 : ℤ) : ℚ), ((16 * cy : ℤ) : ℚ)) hfx2 hfy
  have ht3 : ratTrunc (((cx + 1) * 16 - 16 : ℤ) : ℚ) = (cx + 1) * 16 - 16 := ratTrunc_intCast _
  have hncol : collideRect ⟨(cx + 1) * 16 - 16, 16 * cy, 16, 16⟩
      ⟨(cx + 1) * 16, cy * 16, 16, 16⟩ = false := by
    rw [collideRect_false_iff]; dsimp only; omega
  have hyfold : List.foldl (yStep 0)
      ⟨⟨ratTrunc (((cx + 1) * 16 - 16 : ℤ) : ℚ), ratTrunc ((16 * cy : ℤ) : ℚ),
        ratTrunc (16 : ℚ), ratTrunc (16 : ℚ)⟩, ((16 * cy : ℤ) : ℚ), false, false⟩
      [⟨(cx + 1) * 16, cy * 16, 16, 16⟩]
      = ⟨⟨(cx + 1) * 16 - 16, 16 * cy, 16, 16⟩, ((16 * cy : ℤ) : ℚ), false, false⟩ := by
    rw [List.foldl_cons, List.foldl_nil]
    rw [ht3, ht2, ht16]
    unfold yStep
    simp [hncol]
  unfold Entity.Update c7Body
  simp only [zero_add, add_zero]
  rw [hq1, hxfold]
  simp only []
  rw [hq2, hyfold]
  simp only []
  constructor
  · unfold Entity.Rect IRect.right
    dsimp only
    rw [ht3, ht16]
    ring
  · dsimp only

/-- Witness for claim C7 at a concrete cell and tile type. -/
theorem claim_C7_witness :
    ("stone" ∈ PHYSICS_TILES)
    ∧ ((c7Body 2 (-3)).Update (c7Map 2 (-3) 0 "stone") (0, 0)).Rect.right = 16 * (2 + 1)
    ∧ ((c7Body 2 (-3)).Update (c7Map 2 (-3) 0 "stone") (0, 0)).collisions.right = true :=
  ⟨by decide, claim_C7 2 (-3) 0 "stone" (by decide)⟩

/-! ## Autotiling (claims C4, C5, C10)

`Tilemap.AutoTile` scans the grid dict in key order, recomputing each
record's `variant` in place from the sorted tuple of directions that hold a
same-type neighbour.  Python sorts the collected direction set; since the
four candidate shifts are filtered from a pre-sorted list here, the filter
result is exactly that sorted tuple.
-/

/-- AUTOTILE_MAP: the 9 canonical neighbour patterns, keyed by the sorted
tuple of direction pairs (tuples compare lexicographically in Python). -/
def AUTOTILE_MAP : List (List (ℤ × ℤ) × ℤ) :=
  [([(0, 1), (1, 0)], 0),
   ([(-1, 0), (0, 1), (1, 0)], 1),
   ([(-1, 0), (0, 1)], 2),
   ([(-1, 0), (0, -1), (0, 1)], 3),
   ([(-1, 0), (0, -1)], 4),
   ([(-1, 0), (0, -1), (1, 0)], 5),
   ([(0, -1), (1, 0)], 6),
   ([(0, -1), (0, 1), (1, 0)], 7),
   ([(-1, 0), (0, -1), (0, 1), (1, 0)], 8)]

/-- The four checked shifts, pre-sorted in Python tuple order. -/
def AUTOTILE_DIRS : List (ℤ × ℤ) := [(-1, 0), (0, -1), (0, 1), (1, 0)]

abbrev Grid := List ((ℤ × ℤ) × GTile)

/-- The sorted tuple of directions in which a same-type tile exists
(`neighbors` in AutoTile). -/
def autoNeighbors (g : Grid) (t : GTile) : List (ℤ × ℤ) :=
  AUTOTILE_DIRS.filter fun shift =>
    match List.lookup (t.pos.1 + shift.1, t.pos.2 + shift.2) g with
    | some t' => t'.type == t.type
    | none => false

/-- The variant AutoTile leaves on record `t` given grid `g`: the table
value when the type is autotile-eligible and the neighbour tuple is one of
the 9 patterns, otherwise the previous variant. -/
def autoVariant (g : Grid) (t : GTile) : ℤ :=
  if t.type ∈ AUTOTILE_TYPES then
    match List.lookup (autoNeighbors g t) AUTOTILE_MAP with
    | some v => v
    | none => t.variant
  else t.variant

/-- One step of the scan: recompute (in place) the variant of the record at
key `loc`, reading the current grid. -/
def autoTileVisit (g : Grid) (loc : ℤ × ℤ) : Grid :=
  g.map fun e => if e.1 = loc then (e.1, { e.2 with variant := autoVariant g e.2 }) else e

/-- The scan `for loc in self.tilemap`, visiting keys in the given order. -/
def autoTileSeq (g : Grid) (order : List (ℤ × ℤ)) : Grid :=
  order.foldl autoTileVisit g

/-- Tilemap.AutoTile: visit every grid key in dict iteration order. -/
def Tilemap.AutoTile (tm : Tilemap) : Tilemap :=
  { tm with tilemap := autoTileSeq tm.tilemap (tm.tilemap.map Prod.fst) }

theorem lookup_map_value (uF : GTile → GTile) (l : Grid) (p : ℤ × ℤ) :
    List.lookup p (l.map fun e => (e.1, uF e.2)) = (List.lookup p l).map uF := by
  induction l with
  | nil => rfl
  | cons e rest ih =>
    rw [List.map_cons, List.lookup, List.lookup]
    rcases hbe : p == e.1 with _ | _ <;> simp [hbe, ih]

/-- The type skeleton of the grid as seen through lookups. -/
def typeAt (g : Grid) (p : ℤ × ℤ) : Option String :=
  (List.lookup p g).map GTile.type

theorem autoNeighbors_congr {g₁ g₂ : Grid} (h : ∀ p, typeAt g₁ p = typeAt g₂ p)
    (t : GTile) : autoNeighbors g₁ t = autoNeighbors g₂ t := by
  unfold autoNeighbors
  apply List.filter_congr
  intro shift _
  have hp := h (t.pos.1 + shift.1, t.pos.2 + shift.2)
  unfold typeAt at hp
  rcases h1 : List.lookup (t.pos.1 + shift.1, t.pos.2 + shift.2) g₁ with _ | t1 <;>
    rcases h2 : List.lookup (t.pos.1 + shift.1, t.pos.2 + shift.2) g₂ with _ | t2 <;>
      rw [h1, h2] at hp <;> simp_all

theorem autoVariant_congr {g₁ g₂ : Grid} (h : ∀ p, typeAt g₁ p = typeAt g₂ p)
    (t : GTile) : autoVariant g₁ t = autoVariant g₂ t := by
  unfold autoVariant
  rw [autoNeighbors_congr h t]

/-- Changing only the variant of a record does not change its neighbour
tuple. -/
theorem autoNeighbors_setVariant (g : Grid) (t : GTile) (w : ℤ) :
    autoNeighbors g { t with variant := w } = autoNeighbors g t := rfl

theorem autoVariant_setVariant (g : Grid) (t : GTile) (w : ℤ) :
    autoVariant g { t with variant := w } =
      if t.type ∈ AUTOTILE_TYPES then
        (match List.lookup (autoNeighbors g t) AUTOTILE_MAP with
         | some v => v
         | none => w)
      else w := rfl

/-- Recomputing the variant of an already recomputed record gives the same
value again. -/
theorem autoVariant_stable (g : Grid) (t : GTile) :
    autoVariant g { t with variant := autoVariant g t } = autoVariant g t := by
  rw [autoVariant_setVariant]
  unfold autoVariant
  rcases h : List.lookup (autoNeighbors g t) AUTOTILE_MAP with _ | v <;>
    by_cases he : t.type ∈ AUTOTILE_TYPES <;> simp [he, h]

/-- A map that keeps every entry's key and type leaves the type skeleton of
lookups unchanged. -/
theorem lookup_type_map (f : (ℤ × ℤ) × GTile → (ℤ × ℤ) × GTile)
    (hk : ∀ e, (f e).1 = e.1) (ht : ∀ e, (f e).2.type = e.2.type)
    (l : Grid) (p : ℤ × ℤ) :
    (List.lookup p (l.map f)).map GTile.type = (List.lookup p l).map GTile.type := by
  induction l with
  | nil => rfl
  | cons e rest ih =>
    rw [List.map_cons, List.lookup, List.lookup, hk e]
    rcases hbe : p == e.1 with _ | _
    · exact ih
    · simp [ht e]

theorem typeAt_visit (g : Grid) (loc : ℤ × ℤ) (p : ℤ × ℤ) :
    typeAt (autoTileVisit g loc) p = typeAt g p := by
  unfold typeAt autoTileVisit
  apply lookup_type_map
  · intro e
    by_cases h : e.1 = loc <;> simp [h]
  · intro e
    by_cases h : e.1 = loc <;> simp [h]

/-- The scan visits each key once (repeats are harmless); since each
recomputation reads only types along lookups, which no visit changes, the
whole sequential scan equals an entrywise map computing variants from any
grid with the same type skeleton. -/
theorem autoTileSeq_eq_map (order : List (ℤ × ℤ)) (g g₀ : Grid)
    (hskel : ∀ p, typeAt g p = typeAt g₀ p) :
    autoTileSeq g order
      = g.map fun e =>
          if e.1 ∈ order then (e.1, { e.2 with variant := autoVariant g₀ e.2 }) else e := by
  induction order generalizing g with
  | nil =>
    unfold autoTileSeq
    rw [List.foldl_nil]
    have : (fun (e : (ℤ × ℤ) × GTile) =>
        if e.1 ∈ ([] : List (ℤ × ℤ)) then (e.1, { e.2 with variant := autoVariant g₀ e.2 }) else e)
        = fun e => e := by
      funext e
      simp
    rw [this, List.map_id']
  | cons o rest ih =>
    unfold autoTileSeq
    rw [List.foldl_cons]
    have hskel' : ∀ p, typeAt (autoTileVisit g o) p = typeAt g₀ p :=
      fun p => (typeAt_visit g o p).trans (hskel p)
    have := ih (autoTileVisit g o) hskel'
    unfold autoTileSeq at this
    rw [this]
    unfold autoTileVisit
    rw [List.map_map]
    apply List.map_congr_left
    intro e he
    simp only [Function.comp]
    have hAv : autoVariant g e.2 = autoVariant g₀ e.2 := autoVariant_congr hskel e.2
    by_cases h1 : e.1 = o
    · by_cases h2 : e.1 ∈ rest
      · simp only [h1, if_true, if_pos rfl, h2, List.mem_cons, true_or, or_true]
        rw [hAv, autoVariant_stable g₀ e.2]
        split <;> rfl
      · simp only [h1, if_true, if_pos rfl, h2, if_false, List.mem_cons, true_or]
        rw [hAv]
        simp
        intro _
        exact autoVariant_stable g₀ e.2
    · by_cases h2 : e.1 ∈ rest
      · simp only [if_neg h1, h2, if_true, List.mem_cons, or_true]
      · simp [h1, h2]

/-- AutoTile is the entrywise recomputation of variants against the
pre-scan grid. -/
theorem AutoTile_grid_eq (tm : Tilemap) :
    tm.AutoTile.tilemap
      = tm.tilemap.map fun e => (e.1, { e.2 with variant := autoVariant tm.tilemap e.2 }) := by
  unfold Tilemap.AutoTile
  simp only []
  rw [autoTileSeq_eq_map _ _ tm.tilemap (fun p => rfl)]
  apply List.map_congr_left
  intro e he
  rw [if_pos (List.mem_map_of_mem Prod.fst he)]

theorem Tilemap.eq_of_fields {t1 t2 : Tilemap} (h1 : t1.tile_size = t2.tile_size)
    (h2 : t1.tilemap = t2.tilemap) (h3 : t1.offgrid_tiles = t2.offgrid_tiles) : t1 = t2 := by
  cases t1
  cases t2
  simp_all

/-- Claim C10: AutoTile mutates at most variants — the key sequence, every
record's type and pos, the tile size and the decoration list are unchanged. -/
theorem claim_C10 (tm : Tilemap) :
    tm.AutoTile.tile_size = tm.tile_size
    ∧ tm.AutoTile.offgrid_tiles = tm.offgrid_tiles
    ∧ tm.AutoTile.tilemap.map (fun e => (e.1, e.2.type, e.2.pos))
        = tm.tilemap.map (fun e => (e.1, e.2.type, e.2.pos)) := by
  refine ⟨rfl, rfl, ?_⟩
  rw [AutoTile_grid_eq, List.map_map]
  rfl

/-- Claim C4: after AutoTile, every autotile-eligible tile whose same-type
neighbour tuple is one of the 9 patterns carries the table's variant, and
every tile whose neighbour tuple is not in the table keeps its previous
variant. -/
theorem claim_C4 (tm : Tilemap) (k : ℤ × ℤ) (t : GTile) (hmem : (k, t) ∈ tm.tilemap) :
    (t.type ∈ AUTOTILE_TYPES → ∀ v : ℤ,
      List.lookup (autoNeighbors tm.tilemap t) AUTOTILE_MAP = some v →
      (k, { t with variant := v }) ∈ tm.AutoTile.tilemap)
    ∧ (List.lookup (autoNeighbors tm.tilemap t) AUTOTILE_MAP = none →
      (k, t) ∈ tm.AutoTile.tilemap) := by
  constructor
  · intro helig v hlk
    have hv : autoVariant tm.tilemap t = v := by
      unfold autoVariant
      rw [if_pos helig, hlk]
    rw [AutoTile_grid_eq]
    exact List.mem_map.mpr ⟨(k, t), hmem, by simp [hv]⟩
  · intro hlk
    have hv : autoVariant tm.tilemap t = t.variant := by
      unfold autoVariant
      split
      · rw [hlk]
      · rfl
    rw [AutoTile_grid_eq]
    exact List.mem_map.mpr ⟨(k, t), hmem, by simp [hv]⟩

/-- Witness for claim C4 on the spec's L-shape example: stone at (0,0),
(1,0), (0,1); tile (0,0) has neighbours {right, down} and gets variant 0. -/
theorem claim_C4_witness :
    (((0, 0), GTile.mk "stone" 7 (0, 0)) ∈
        (Tilemap.mk 16 [((0, 0), ⟨"stone", 7, (0, 0)⟩), ((1, 0), ⟨"stone", 7, (1, 0)⟩),
          ((0, 1), ⟨"stone", 7, (0, 1)⟩)] []).tilemap)
    ∧ ("stone" ∈ AUTOTILE_TYPES)
    ∧ (List.lookup (autoNeighbors (Tilemap.mk 16 [((0, 0), ⟨"stone", 7, (0, 0)⟩),
          ((1, 0), ⟨"stone", 7, (1, 0)⟩), ((0, 1), ⟨"stone", 7, (0, 1)⟩)] []).tilemap
        (GTile.mk "stone" 7 (0, 0))) AUTOTILE_MAP = some 0)
    ∧ (((0, 0), GTile.mk "stone" 0 (0, 0)) ∈
        (Tilemap.mk 16 [((0, 0), ⟨"stone", 7, (0, 0)⟩), ((1, 0), ⟨"stone", 7, (1, 0)⟩),
          ((0, 1), ⟨"stone", 7, (0, 1)⟩)] []).AutoTile.tilemap) :=
  ⟨by decide, by decide, by decide,
   (claim_C4 _ (0, 0) (GTile.mk "stone" 7 (0, 0)) (by decide)).1 (by decide) 0 (by decide)⟩

/-- Claim C5: AutoTile is idempotent, and the scan's result does not depend
on the order in which the grid keys are visited. -/
theorem claim_C5 :
    (∀ tm : Tilemap, tm.AutoTile.AutoTile = tm.AutoTile)
    ∧ (∀ (g : Grid) (o₁ o₂ : List (ℤ × ℤ)), o₁.Perm o₂ →
        autoTileSeq g o₁ = autoTileSeq g o₂) := by
  constructor
  · intro tm
    have hskel : ∀ p,
        typeAt (tm.tilemap.map fun e =>
          (e.1, { e.2 with variant := autoVariant tm.tilemap e.2 })) p
          = typeAt tm.tilemap p := by
      intro p
      unfold typeAt
      exact lookup_type_map
        (fun e => (e.1, { e.2 with variant := autoVariant tm.tilemap e.2 }))
        (fun e => rfl) (fun e => rfl) tm.tilemap p
    refine Tilemap.eq_of_fields rfl ?_ rfl
    rw [AutoTile_grid_eq tm.AutoTile, AutoTile_grid_eq tm, List.map_map]
    apply List.map_congr_left
    intro e he
    simp only [Function.comp]
    rw [autoVariant_congr hskel, autoVariant_stable]
  · intro g o₁ o₂ hperm
    rw [autoTileSeq_eq_map o₁ g g (fun p => rfl), autoTileSeq_eq_map o₂ g g (fun p => rfl)]
    apply List.map_congr_left
    intro e he
    by_cases h : e.1 ∈ o₁
    · rw [if_pos h, if_pos (hperm.mem_iff.mp h)]
    · rw [if_neg h, if_neg (fun hh => h (hperm.mem_iff.mpr hh))]

/-- Witness for claim C5's order-independence at a concrete grid and a
transposed visit order. -/
theorem claim_C5_witness :
    autoTileSeq [((0, 0), ⟨"grass", 3, (0, 0)⟩), ((1, 0), ⟨"grass", 3, (1, 0)⟩)]
        [(0, 0), (1, 0)]
      = autoTileSeq [((0, 0), ⟨"grass", 3, (0, 0)⟩), ((1, 0), ⟨"grass", 3, (1, 0)⟩)]
        [(1, 0), (0, 0)] :=
  claim_C5.2 _ [(0, 0), (1, 0)] [(1, 0), (0, 0)] (List.Perm.swap (1, 0) (0, 0) [])

/-! ## Extract (claims C2, C9)

`Tilemap.Extract` scans the off-grid list and the grid for records whose
`(type, variant)` pair is in `id_pairs`.  The off-grid loop iterates over a
copy of the list and removes matches from the live list by value; the grid
loop iterates the dict itself and, when `keep` is false, deletes the
matched key from the dict being iterated — in Python the very next step of
that iteration raises `RuntimeError: dictionary changed size during
iteration`, which this model returns as an `Except.error`.
-/

/-- Membership test `(type, variant) in id_pairs`. -/
def tileMatches (id_pairs : List (String × ℤ)) (ty : String) (v : ℤ) : Bool :=
  decide ((ty, v) ∈ id_pairs)

/-- The off-grid phase of Extract: first argument is the iterated copy,
second the live list; returns (matches, final live list). -/
def extractOffgrid (id_pairs : List (String × ℤ)) (keep : Bool) :
    List Tile → List Tile → List Tile × List Tile
  | [], cur => ([], cur)
  | t :: rest, cur =>
    if tileMatches id_pairs t.type t.variant then
      let cur' := if keep then cur else cur.erase t
      let res := extractOffgrid id_pairs keep rest cur'
      (t :: res.1, res.2)
    else
      extractOffgrid id_pairs keep rest cur

/-- The on-grid phase of Extract: matched records are copied with `pos`
rescaled from grid to pixel coordinates; with `keep = false` the deletion
happens inside the dict iteration and the iteration's next step raises. -/
def extractGrid (id_pairs : List (String × ℤ)) (keep : Bool) (ts : ℤ) :
    Grid → Except String (List Tile × Grid)
  | [] => .ok ([], [])
  | (k, t) :: rest =>
    if tileMatches id_pairs t.type t.variant then
      if keep then
        match extractGrid id_pairs keep ts rest with
        | .ok (ms, r) =>
          .ok (⟨t.type, t.variant, (((t.pos.1 * ts : ℤ) : ℚ), ((t.pos.2 * ts : ℤ) : ℚ))⟩ :: ms,
            (k, t) :: r)
        | .error e => .error e
      else .error "RuntimeError: dictionary changed size during iteration"
    else
      match extractGrid id_pairs keep ts rest with
      | .ok (ms, r) => .ok (ms, (k, t) :: r)
      | .error e => .error e

/-- Tilemap.Extract: off-grid matches first (in sequence order), then grid
matches (in dict iteration order). -/
def Tilemap.Extract (tm : Tilemap) (id_pairs : List (String × ℤ)) (keep : Bool) :
    Except String (List Tile × Tilemap) :=
  let off := extractOffgrid id_pairs keep tm.offgrid_tiles tm.offgrid_tiles
  match extractGrid id_pairs keep tm.tile_size tm.tilemap with
  | .ok (ms, g) => .ok (off.1 ++ ms, { tm with tilemap := g, offgrid_tiles := off.2 })
  | .error e => .error e

theorem extractOffgrid_keep (id_pairs : List (String × ℤ)) :
    ∀ (l cur : List Tile),
      extractOffgrid id_pairs true l cur
        = (l.filter (fun t => tileMatches id_pairs t.type t.variant), cur) := by
  intro l
  induction l with
  | nil => intro cur; rfl
  | cons t rest ih =>
    intro cur
    rw [extractOffgrid, List.filter]
    by_cases h : tileMatches id_pairs t.type t.variant <;> simp [h, ih]

theorem extractGrid_keep (id_pairs : List (String × ℤ)) (ts : ℤ) :
    ∀ l : Grid,
      extractGrid id_pairs true ts l
        = .ok (l.filterMap (fun e =>
            if tileMatches id_pairs e.2.type e.2.variant then
              some ⟨e.2.type, e.2.variant,
                (((e.2.pos.1 * ts : ℤ) : ℚ), ((e.2.pos.2 * ts : ℤ) : ℚ))⟩
            else none), l) := by
  intro l
  induction l with
  | nil => rfl
  | cons e rest ih =>
    rcases e with ⟨k, t⟩
    rw [extractGrid, List.filterMap]
    by_cases h : tileMatches id_pairs t.type t.variant <;> simp [h, ih]

/-- Claim C9: Extract with keep = true returns all matching decorations
first (sequence order, positions verbatim), then all matching grid tiles
with pos rescaled by tile_size in the copy only, and leaves the tilemap
unchanged; a grid tile at (3, 2) with tile_size 16 yields pos (48, 32)
while the original grid entry still holds (3, 2). -/
theorem claim_C9 :
    (∀ (tm : Tilemap) (id_pairs : List (String × ℤ)),
      tm.Extract id_pairs true =
        .ok ((tm.offgrid_tiles.filter fun t => tileMatches id_pairs t.type t.variant)
              ++ (tm.tilemap.filterMap fun e =>
                   if tileMatches id_pairs e.2.type e.2.variant then
                     some ⟨e.2.type, e.2.variant,
                       (((e.2.pos.1 * tm.tile_size : ℤ) : ℚ),
                        ((e.2.pos.2 * tm.tile_size : ℤ) : ℚ))⟩
                   else none),
             tm))
    ∧ (Tilemap.mk 16 [((3, 2), ⟨"stone", 0, (3, 2)⟩)] []).Extract [("stone", 0)] true
        = .ok ([⟨"stone", 0, (48, 32)⟩], Tilemap.mk 16 [((3, 2), ⟨"stone", 0, (3, 2)⟩)] []) := by
  constructor
  · intro tm id_pairs
    unfold Tilemap.Extract
    rw [extractOffgrid_keep, extractGrid_keep]
  · with_unfolding_all rfl

theorem extractGrid_match_error (id_pairs : List (String × ℤ)) (ts : ℤ) :
    ∀ l : Grid, (∃ e ∈ l, tileMatches id_pairs e.2.type e.2.variant = true) →
      ∃ msg, extractGrid id_pairs false ts l = .error msg := by
  intro l
  induction l with
  | nil =>
    intro h
    simp at h
  | cons e rest ih =>
    intro h
    rcases e with ⟨k, t⟩
    rw [extractGrid]
    by_cases hm : tileMatches id_pairs t.type t.variant
    · exact ⟨"RuntimeError: dictionary changed size during iteration", by simp [hm]⟩
    · have hrest : ∃ e ∈ rest, tileMatches id_pairs e.2.type e.2.variant = true := by
        rcases h with ⟨e', he', hme'⟩
        rcases List.mem_cons.mp he' with h1 | h1
        · subst h1
          exact absurd hme' hm
        · exact ⟨e', h1, hme'⟩
      rcases ih hrest with ⟨msg, hmsg⟩
      exact ⟨msg, by simp [hm, hmsg]⟩

/-- Claim C2 (code bug): whenever the grid holds a matching record,
Extract with keep = false raises (dict deletion during dict iteration)
instead of totally removing the matches as the spec states. -/
theorem claim_C2 (tm : Tilemap) (id_pairs : List (String × ℤ))
    (h : ∃ e ∈ tm.tilemap, tileMatches id_pairs e.2.type e.2.variant = true) :
    ∃ msg, tm.Extract id_pairs false = .error msg := by
  rcases extractGrid_match_error id_pairs tm.tile_size tm.tilemap h with ⟨msg, hmsg⟩
  exact ⟨msg, by unfold Tilemap.Extract; rw [hmsg]⟩

/-- Witness for claim C2's failing input: a grid holding one ('grass', 0)
tile makes `Extract [('grass', 0)], keep=false` raise. -/
theorem claim_C2_witness :
    (∃ e ∈ (Tilemap.mk 16 [((0, 0), ⟨"grass", 0, (0, 0)⟩)] []).tilemap,
       tileMatches [("grass", 0)] e.2.type e.2.variant = true)
    ∧ ∃ msg, (Tilemap.mk 16 [((0, 0), ⟨"grass", 0, (0, 0)⟩)] []).Extract
        [("grass", 0)] false = .error msg :=
  ⟨⟨((0, 0), ⟨"grass", 0, (0, 0)⟩), by decide, by decide⟩,
   claim_C2 _ [("grass", 0)] ⟨((0, 0), ⟨"grass", 0, (0, 0)⟩), by decide, by decide⟩⟩

/-! ## Persistence (claims C3, C6)

`Save` dumps `{'tilemap': self.tilemap, 'tile_size': self.tile_size,
'offgrid': self.offgrid_tiles}` as a JSON document; `Load` opens the path,
parses the document, and assigns the three fields to the attributes one at
a time.  `JVal` models parsed JSON values (Python json distinguishes int
and float and round-trips both exactly).  The live attribute state during
`Load` is dynamically typed, so it is modelled by `DState`, a triple of raw
JSON-like values; `reflect` embeds a typed `Tilemap` into it — exactly the
value `json.dump` serializes.
-/

inductive JVal where
  | jint (n : ℤ)
  | jfloat (q : ℚ)
  | jstr (s : String)
  | jarr (l : List JVal)
  | jobj (l : List (String × JVal))

/-- Python `str(x) + ';' + str(y)`, the grid key of cell `(x, y)`. -/
def keyStr (p : ℤ × ℤ) : String := toString p.1 ++ ";" ++ toString p.2

/-- The JSON image of a grid record (integer coordinates). -/
def encGTile (t : GTile) : JVal :=
  .jobj [("type", .jstr t.type), ("variant", .jint t.variant),
         ("pos", .jarr [.jint t.pos.1, .jint t.pos.2])]

/-- The JSON image of a decoration record (float coordinates). -/
def encTile (t : Tile) : JVal :=
  .jobj [("type", .jstr t.type), ("variant", .jint t.variant),
         ("pos", .jarr [.jfloat t.pos.1, .jfloat t.pos.2])]

/-- The raw attribute state `(self.tilemap, self.tile_size,
self.offgrid_tiles)` as JSON-serializable values. -/
structure DState where
  tilemapJ : JVal
  tile_sizeJ : JVal
  offgridJ : JVal

def reflect (tm : Tilemap) : DState :=
  ⟨.jobj (tm.tilemap.map fun e => (keyStr e.1, encGTile e.2)),
   .jint tm.tile_size,
   .jarr (tm.offgrid_tiles.map encTile)⟩

/-- Tilemap.Save: the dumped document. -/
def Tilemap.Save (tm : Tilemap) : JVal :=
  .jobj [("tilemap", (reflect tm).tilemapJ), ("tile_size", (reflect tm).tile_sizeJ),
         ("offgrid", (reflect tm).offgridJ)]

inductive LoadInput where
  | missing
  | invalid
  | doc (j : JVal)

inductive LoadErr where
  | fileNotFound
  | jsonDecode
  | keyError (field : String)
  | typeError
deriving DecidableEq, Repr

/-- Tilemap.Load: `open` raises FileNotFoundError on a missing path,
`json.load` raises JSONDecodeError on unparseable text, and the three
subscript-and-assign statements run in order, so an error raised at any
point aborts the call leaving exactly the assignments made so far.
Returns (raised error, resulting attribute state). -/
def LoadD : LoadInput → DState → Option LoadErr × DState
  | .missing, s => (some .fileNotFound, s)
  | .invalid, s => (some .jsonDecode, s)
  | .doc j, s =>
    match j with
    | .jobj fields =>
      match List.lookup "tilemap" fields with
      | none => (some (.keyError "tilemap"), s)
      | some v1 =>
        let s1 := { s with tilemapJ := v1 }
        match List.lookup "tile_size" fields with
        | none => (some (.keyError "tile_size"), s1)
        | some v2 =>
          let s2 := { s1 with tile_sizeJ := v2 }
          match List.lookup "offgrid" fields with
          | none => (some (.keyError "offgrid"), s2)
          | some v3 => (none, { s2 with offgridJ := v3 })
    | _ => (some .typeError, s)

/-- Reading the raw state back as a typed Tilemap.  Grid keys are recovered
from the duplicated `pos` field of each record, which coincides with the
string key for every state the editor or a load produces (the spec's key
invariant). -/
def decodeGTile : JVal → Option GTile
  | .jobj [("type", .jstr ty), ("variant", .jint v), ("pos", .jarr [.jint x, .jint y])] =>
    some ⟨ty, v, (x, y)⟩
  | _ => none

def decodeTile : JVal → Option Tile
  | .jobj [("type", .jstr ty), ("variant", .jint v), ("pos", .jarr [.jfloat x, .jfloat y])] =>
    some ⟨ty, v, (x, y)⟩
  | _ => none

def decodeGridList : List (String × JVal) → Option Grid
  | [] => some []
  | (_, jv) :: rest =>
    match decodeGTile jv, decodeGridList rest with
    | some t, some r => some ((t.pos, t) :: r)
    | _, _ => none

def decodeTileList : List JVal → Option (List Tile)
  | [] => some []
  | jv :: rest =>
    match decodeTile jv, decodeTileList rest with
    | some t, some r => some (t :: r)
    | _, _ => none

def decodeState (s : DState) : Option Tilemap :=
  match s.tilemapJ, s.tile_sizeJ, s.offgridJ with
  | .jobj gl, .jint ts, .jarr ol =>
    match decodeGridList gl, decodeTileList ol with
    | some g, some og => some ⟨ts, g, og⟩
    | _, _ => none
  | _, _, _ => none

theorem decodeGridList_enc : ∀ l : Grid,
    decodeGridList (l.map fun e => (keyStr e.1, encGTile e.2))
      = some (l.map fun e => (e.2.pos, e.2)) := by
  intro l
  induction l with
  | nil => rfl
  | cons e rest ih =>
    rw [List.map_cons, List.map_cons, decodeGridList]
    rw [show decodeGTile (encGTile e.2) = some e.2 from rfl, ih]

theorem decodeTileList_enc : ∀ l : List Tile,
    decodeTileList (l.map encTile) = some l := by
  intro l
  induction l with
  | nil => rfl
  | cons t rest ih =>
    rw [List.map_cons, decodeTileList]
    rw [show decodeTile (encTile t) = some t from rfl, ih]

/-- Claim C3: for every Tilemap whose grid keys agree with the duplicated
pos fields (the data-model invariant every place/remove/addDecoration
sequence maintains), Load(Save(T)) raises nothing, leaves precisely the
saved raw state, and that state reads back as a Tilemap equal to T — grid
with integer coordinates and tile_size exact, decoration sequence in order
with float positions exact. -/
theorem claim_C3 (tm : Tilemap) (s : DState)
    (hwf : ∀ e ∈ tm.tilemap, e.2.pos = e.1) :
    (LoadD (.doc tm.Save) s).1 = none
    ∧ (LoadD (.doc tm.Save) s).2 = reflect tm
    ∧ decodeState (reflect tm) = some tm := by
  refine ⟨rfl, rfl, ?_⟩
  unfold decodeState reflect
  dsimp only
  rw [decodeGridList_enc, decodeTileList_enc]
  dsimp only
  have : tm.tilemap.map (fun e => (e.2.pos, e.2)) = tm.tilemap := by
    have := List.map_congr_left (l := tm.tilemap)
      (f := fun e => (e.2.pos, e.2)) (g := fun e => e)
      (fun e he => by dsimp only; rw [hwf e he])
    rw [this, List.map_id']
  rw [this]

/-- Witness for claim C3 at a concrete map with one grid tile and one
decoration. -/
theorem claim_C3_witness :
    (∀ e ∈ (Tilemap.mk 16 [((2, -1), ⟨"grass", 4, (2, -1)⟩)]
        [⟨"decor", 1, (33/2, 7/4)⟩]).tilemap, e.2.pos = e.1)
    ∧ (LoadD (.doc (Tilemap.mk 16 [((2, -1), ⟨"grass", 4, (2, -1)⟩)]
        [⟨"decor", 1, (33/2, 7/4)⟩]).Save) ⟨.jint 0, .jint 0, .jint 0⟩).1 = none
    ∧ (LoadD (.doc (Tilemap.mk 16 [((2, -1), ⟨"grass", 4, (2, -1)⟩)]
        [⟨"decor", 1, (33/2, 7/4)⟩]).Save) ⟨.jint 0, .jint 0, .jint 0⟩).2
        = reflect (Tilemap.mk 16 [((2, -1), ⟨"grass", 4, (2, -1)⟩)]
            [⟨"decor", 1, (33/2, 7/4)⟩])
    ∧ decodeState (reflect (Tilemap.mk 16 [((2, -1), ⟨"grass", 4, (2, -1)⟩)]
        [⟨"decor", 1, (33/2, 7/4)⟩]))
        = some (Tilemap.mk 16 [((2, -1), ⟨"grass", 4, (2, -1)⟩)]
            [⟨"decor", 1, (33/2, 7/4)⟩]) :=
  ⟨by decide, claim_C3 _ ⟨.jint 0, .jint 0, .jint 0⟩ (by decide)⟩

/-- Claim C6, amended: Load fails with the not-found error exactly when the
path is missing, and a failing Load leaves the Tilemap unmodified when the
failure is the missing file, a JSON parse error, a non-object document, or
a document without a 'tilemap' field.  (A document that has 'tilemap' but
lacks 'tile_size' or 'offgrid' commits the earlier fields before failing —
see the counterexample.) -/
theorem claim_C6 :
    (∀ (inp : LoadInput) (s : DState),
        (LoadD inp s).1 = some .fileNotFound ↔ inp = .missing)
    ∧ (∀ s : DState, LoadD .missing s = (some .fileNotFound, s))
    ∧ (∀ s : DState, LoadD .invalid s = (some .jsonDecode, s))
    ∧ (∀ (j : JVal) (s : DState), (∀ fields, j ≠ .jobj fields) →
        (LoadD (.doc j) s).2 = s)
    ∧ (∀ (fields : List (String × JVal)) (s : DState),
        List.lookup "tilemap" fields = none → (LoadD (.doc (.jobj fields)) s).2 = s) := by
  refine ⟨?_, fun s => rfl, fun s => rfl, ?_, ?_⟩
  · intro inp s
    cases inp with
    | missing => simp [LoadD]
    | invalid => simp [LoadD]
    | doc j =>
      cases j with
      | jobj fields =>
        simp only [LoadD]
        rcases List.lookup "tilemap" fields with _ | v1
        · simp
        · rcases List.lookup "tile_size" fields with _ | v2
          · simp
          · rcases List.lookup "offgrid" fields with _ | v3 <;> simp
      | jint n => simp [LoadD]
      | jfloat q => simp [LoadD]
      | jstr st => simp [LoadD]
      | jarr l => simp [LoadD]
  · intro j s hne
    cases j with
    | jobj fields => exact absurd rfl (hne fields)
    | jint n => rfl
    | jfloat q => rfl
    | jstr st => rfl
    | jarr l => rfl
  · intro fields s hlk
    simp only [LoadD]
    rw [hlk]

/-- Witness for claim C6 at the empty JSON object (no 'tilemap' field): the
state is untouched. -/
theorem claim_C6_witness :
    (List.lookup "tilemap" ([] : List (String × JVal)) = none)
    ∧ (LoadD (.doc (.jobj [])) ⟨.jint 1, .jint 2, .jint 3⟩).2 = ⟨.jint 1, .jint 2, .jint 3⟩ :=
  ⟨rfl, claim_C6.2.2.2.2 [] ⟨.jint 1, .jint 2, .jint 3⟩ rfl⟩

/-- Counterexample to claim C6 as stated: the document `{"tilemap": {}}` is
structurally invalid (no tile_size/offgrid), makes Load fail, and yet
replaces the live grid before the failure. -/
theorem claim_C6_counterexample :
    ((LoadD (.doc (.jobj [("tilemap", .jobj [])]))
        (reflect (Tilemap.mk 16 [((0, 0), ⟨"grass", 1, (0, 0)⟩)] []))).1
      = some (.keyError "tile_size"))
    ∧ (LoadD (.doc (.jobj [("tilemap", .jobj [])]))
        (reflect (Tilemap.mk 16 [((0, 0), ⟨"grass", 1, (0, 0)⟩)] []))).2
      ≠ reflect (Tilemap.mk 16 [((0, 0), ⟨"grass", 1, (0, 0)⟩)] []) := by
  constructor
  · rfl
  · intro h
    have h2 := congrArg DState.tilemapJ h
    simp only [LoadD, reflect] at h2
    rw [List.map_cons] at h2
    injection h2 with h3
    simp at h3

/-! ## Collision containment (claim C1)

Machinery for the axis-separated pass: a body that starts clear of all
solid rects, is no larger than a tile, and moves at most one tile per axis
per frame ends the pass clear of all solid rects.  The claim as stated —
for bodies of any size, speed and starting position — is refuted by a
counterexample below.
-/

/-- A rect position strictly between two non-colliding positions of the
same rect (same y, w, h) cannot collide either, provided the total
displacement is at most one tile width (no tunnelling). -/
theorem collide_between (ts x1 x2 x y w h : ℤ) (R : IRect)
    (hRw : R.w = ts) (hw : 1 ≤ w) (hts : x2 - x1 ≤ ts)
    (hx1 : x1 ≤ x) (hx2 : x ≤ x2)
    (h1 : collideRect ⟨x1, y, w, h⟩ R = false)
    (h2 : collideRect ⟨x2, y, w, h⟩ R = false) :
    collideRect ⟨x, y, w, h⟩ R = false := by
  rw [collideRect_false_iff] at h1 h2 ⊢
  dsimp only at h1 h2 ⊢
  omega

theorem lookup_eq_of_mem_nodup {l : Grid} (hnd : (l.map Prod.fst).Nodup)
    {e : (ℤ × ℤ) × GTile} (he : e ∈ l) : List.lookup e.1 l = some e.2 := by
  induction l with
  | nil => cases he
  | cons a rest ih =>
    rw [List.map_cons, List.nodup_cons] at hnd
    rcases List.mem_cons.mp he with h1 | h1
    · subst h1
      rw [List.lookup, beq_self_eq_true]
    · rw [List.lookup]
      have hne : e.1 ≠ a.1 := by
        intro hcontra
        exact hnd.1 (hcontra ▸ List.mem_map_of_mem Prod.fst h1)
      rw [beq_eq_false_iff_ne.mpr hne]
      exact ih hnd.2 h1

/-- Window coverage: any solid grid rect that the (at most tile-sized) rect
at the truncated position overlaps is among the rects the spatial query at
that position returns. -/
theorem collide_mem_query (tm : Tilemap) (hts : 1 ≤ tm.tile_size)
    (hnodup : (tm.tilemap.map Prod.fst).Nodup)
    (hwf : ∀ en ∈ tm.tilemap, en.2.pos = en.1)
    (w h : ℤ) (hw1 : 1 ≤ w) (hwts : w ≤ tm.tile_size)
    (hh1 : 1 ≤ h) (hhts : h ≤ tm.tile_size)
    (px py : ℚ) (R : IRect) (hR : R ∈ tm.allSolidRects)
    (hcol : collideRect ⟨ratTrunc px, ratTrunc py, w, h⟩ R = true) :
    R ∈ tm.Physics_Rects_Around (px, py) := by
  classical
  set ts := tm.tile_size with hts_def
  rcases List.mem_filterMap.mp hR with ⟨en, hen, hres⟩
  by_cases hsolid : en.2.type ∈ PHYSICS_TILES
  swap
  · rw [if_neg hsolid] at hres
    cases hres
  rw [if_pos hsolid] at hres
  have hRval : R = tileRect ts en.2.pos := by
    cases hres
    rfl
  set a := en.2.pos.1 with ha_def
  set b := en.2.pos.2 with hb_def
  set cx := ⌊px / (ts : ℚ)⌋ with hcx_def
  set cy := ⌊py / (ts : ℚ)⌋ with hcy_def
  have hts0 : (0 : ℤ) < ts := by omega
  have hbx := ratTrunc_cell_bounds px ts hts0
  have hby := ratTrunc_cell_bounds py ts hts0
  rw [collideRect_iff] at hcol
  rw [hRval] at hcol
  unfold tileRect at hcol
  dsimp only at hcol
  -- the tile's cell is inside the 3x3 window of (cx, cy)
  have hax : cx ≤ a ∧ a ≤ cx + 1 := by
    constructor
    · have h1 : cx * ts ≤ ratTrunc px := hbx.1
      have h2 : ratTrunc px < a * ts + ts := hcol.1
      nlinarith
    · have h1 : a * ts < ratTrunc px + w := hcol.2.1
      have h2 : ratTrunc px ≤ (cx + 1) * ts := hbx.2
      nlinarith
  have hbxy : cy ≤ b ∧ b ≤ cy + 1 := by
    constructor
    · have h1 : cy * ts ≤ ratTrunc py := hby.1
      have h2 : ratTrunc py < b * ts + ts := hcol.2.2.1
      nlinarith
    · have h1 : b * ts < ratTrunc py + h := hcol.2.2.2
      have h2 : ratTrunc py ≤ (cy + 1) * ts := hby.2
      nlinarith
  -- the record is found by the 9-cell scan
  have hofs : ((a - cx, b - cy) : ℤ × ℤ) ∈ NEIGHBOR_OFFSET := by
    unfold NEIGHBOR_OFFSET
    have h1 : a - cx = 0 ∨ a - cx = 1 := by omega
    have h2 : b - cy = 0 ∨ b - cy = 1 := by omega
    rcases h1 with h1 | h1 <;> rcases h2 with h2 | h2 <;> simp [h1, h2, Prod.ext_iff]
  have hkey : en.1 = (a, b) := by
    rw [← hwf en hen]
  have htile : en.2 ∈ tm.Tiles_Around (px, py) := by
    unfold Tilemap.Tiles_Around
    apply List.mem_filterMap.mpr
    refine ⟨(a - cx, b - cy), hofs, ?_⟩
    dsimp only
    have harg : (cx + (a - cx), cy + (b - cy)) = (a, b) := by
      simp [Prod.ext_iff]
    rw [← hcx_def, ← hcy_def]
    rw [harg, ← hkey]
    exact lookup_eq_of_mem_nodup hnodup hen
  unfold Tilemap.Physics_Rects_Around
  apply List.mem_filterMap.mpr
  refine ⟨en.2, htile, ?_⟩
  rw [if_pos hsolid, hRval]

/-- The invariant carried through the horizontal loop: the live `pos[0]`
truncates to the working rect's x, the rect's other fields never change,
and its x stays between the pre-move and post-move positions. -/
def xInv (xs xm y w h : ℤ) (s : XState) : Prop :=
  ratTrunc s.posx = s.er.x ∧ s.er.y = y ∧ s.er.w = w ∧ s.er.h = h
    ∧ min xs xm ≤ s.er.x ∧ s.er.x ≤ max xs xm

/-- One loop iteration preserves the invariant, leaves the processed rect
non-overlapped, and never re-overlaps a rect that was clear both at the
start position and before this iteration. -/
theorem xStep_preserves (fmx : ℚ) (ts w h y xs xm : ℤ)
    (hw : 1 ≤ w) (hdisp : |xm - xs| ≤ ts)
    (hpos : 0 < fmx → xs ≤ xm) (hneg : fmx < 0 → xm ≤ xs) (hzero : fmx = 0 → xm = xs)
    (s : XState) (r : IRect)
    (hrw : r.w = ts) (hrh : r.h = ts)
    (hstart_r : collideRect ⟨xs, y, w, h⟩ r = false)
    (hInv : xInv xs xm y w h s) :
    xInv xs xm y w h (xStep fmx s r)
    ∧ collideRect (xStep fmx s r).er r = false
    ∧ (∀ r' : IRect, r'.w = ts →
        collideRect ⟨xs, y, w, h⟩ r' = false →
        collideRect s.er r' = false → collideRect (xStep fmx s r).er r' = false) := by
  have hdisp2 : -ts ≤ xm - xs ∧ xm - xs ≤ ts := abs_le.mp hdisp
  obtain ⟨⟨X, Y, W, H⟩, px, cr, cl⟩ := s
  obtain ⟨rx, ry, rw1, rh1⟩ := r
  obtain ⟨hI1, hI2, hI3, hI4, hI5, hI6⟩ := hInv
  dsimp only at hI1 hI2 hI3 hI4 hI5 hI6 hrw hrh
  subst hI2 hI3 hI4
  unfold xStep
  by_cases hcol : collideRect ⟨X, Y, W, H⟩ ⟨rx, ry, rw1, rh1⟩ = true
  swap
  · -- no collision: the state is unchanged
    rw [Bool.not_eq_true] at hcol
    rw [if_neg (by rw [hcol]; exact Bool.false_ne_true)]
    exact ⟨⟨hI1, rfl, rfl, rfl, hI5, hI6⟩, hcol, fun r' _ _ hprev => hprev⟩
  rw [if_pos hcol]
  rw [collideRect_iff] at hcol
  dsimp only at hcol
  rw [collideRect_false_iff] at hstart_r
  dsimp only at hstart_r
  rcases lt_trichotomy fmx 0 with hf | hf | hf
  · -- moving left: clamp the left edge to the rect's right edge
    have hxm : xm ≤ xs := hneg hf
    have hnotpos : ¬(fmx > 0) := by linarith
    simp only [if_pos hf, if_neg hnotpos]
    have hXnew : rx + ts ≤ xs := by
      -- at the start the body was clear of r; being right of r is the only
      -- possibility compatible with the current collision
      omega
    refine ⟨⟨ratTrunc_intCast _, rfl, rfl, rfl, ?_, ?_⟩, ?_, ?_⟩
    · show min xs xm ≤ rx + rw1
      omega
    · show rx + rw1 ≤ max xs xm
      omega
    · show collideRect ⟨rx + rw1, Y, W, H⟩ ⟨rx, ry, rw1, rh1⟩ = false
      rw [collideRect_false_iff]
      dsimp only
      omega
    · intro r' hr'w hstart' hprev'
      obtain ⟨r'x, r'y, r'w1, r'h1⟩ := r'
      dsimp only at hr'w
      rw [collideRect_false_iff] at hstart' hprev'
      dsimp only at hstart' hprev'
      show collideRect ⟨rx + rw1, Y, W, H⟩ ⟨r'x, r'y, r'w1, r'h1⟩ = false
      rw [collideRect_false_iff]
      dsimp only
      omega
  · -- fmx = 0 cannot collide: the rect still sits at the start position
    subst hf
    have hxm : xm = xs := hzero rfl
    exfalso
    omega
  · -- moving right: clamp the right edge to the rect's left edge
    have hxm : xs ≤ xm := hpos hf
    have hnotneg : ¬(fmx < 0) := by linarith
    simp only [if_pos hf, if_neg hnotneg]
    have hXnew : xs + W ≤ rx := by
      omega
    refine ⟨⟨ratTrunc_intCast _, rfl, rfl, rfl, ?_, ?_⟩, ?_, ?_⟩
    · show min xs xm ≤ rx - W
      omega
    · show rx - W ≤ max xs xm
      omega
    · show collideRect ⟨rx - W, Y, W, H⟩ ⟨rx, ry, rw1, rh1⟩ = false
      rw [collideRect_false_iff]
      dsimp only
      omega
    · intro r' hr'w hstart' hprev'
      obtain ⟨r'x, r'y, r'w1, r'h1⟩ := r'
      dsimp only at hr'w
      rw [collideRect_false_iff] at hstart' hprev'
      dsimp only at hstart' hprev'
      show collideRect ⟨rx - W, Y, W, H⟩ ⟨r'x, r'y, r'w1, r'h1⟩ = false
      rw [collideRect_false_iff]
      dsimp only
      omega

/-- The whole horizontal loop preserves the invariant and ends clear of
every processed rect. -/
theorem xPass_fold (fmx : ℚ) (ts w h y xs xm : ℤ)
    (hw : 1 ≤ w) (hdisp : |xm - xs| ≤ ts)
    (hpos : 0 < fmx → xs ≤ xm) (hneg : fmx < 0 → xm ≤ xs) (hzero : fmx = 0 → xm = xs) :
    ∀ (L : List IRect) (s : XState),
      (∀ r ∈ L, r.w = ts ∧ r.h = ts ∧ collideRect ⟨xs, y, w, h⟩ r = false) →
      xInv xs xm y w h s →
      xInv xs xm y w h (L.foldl (xStep fmx) s)
      ∧ (∀ r ∈ L, collideRect (L.foldl (xStep fmx) s).er r = false)
      ∧ (∀ r' : IRect, r'.w = ts →
          collideRect ⟨xs, y, w, h⟩ r' = false →
          collideRect s.er r' = false →
          collideRect (L.foldl (xStep fmx) s).er r' = false) := by
  intro L
  induction L with
  | nil =>
    intro s _ hInv
    exact ⟨hInv, by simp, fun r' _ _ hp => hp⟩
  | cons r rest ih =>
    intro s hL hInv
    have hr := hL r (List.mem_cons_self r rest)
    have hstep := xStep_preserves fmx ts w h y xs xm hw hdisp hpos hneg hzero s r
      hr.1 hr.2.1 hr.2.2 hInv
    have hrest : ∀ r0 ∈ rest, r0.w = ts ∧ r0.h = ts ∧ collideRect ⟨xs, y, w, h⟩ r0 = false :=
      fun r0 h0 => hL r0 (List.mem_cons_of_mem _ h0)
    rw [List.foldl_cons]
    have IH := ih (xStep fmx s r) hrest hstep.1
    refine ⟨IH.1, ?_, ?_⟩
    · intro r0 h0
      rcases List.mem_cons.mp h0 with h1 | h1
      · subst h1
        exact IH.2.2 r0 hr.1 hr.2.2 hstep.2.1
      · exact IH.2.1 r0 h1
    · intro r' hw' hs' hp'
      exact IH.2.2 r' hw' hs' (hstep.2.2 r' hw' hs' hp')

theorem allSolidRects_size (tm : Tilemap) :
    ∀ R ∈ tm.allSolidRects, R.w = tm.tile_size ∧ R.h = tm.tile_size := by
  intro R hR
  unfold Tilemap.allSolidRects at hR
  rcases List.mem_filterMap.mp hR with ⟨en, _, hres⟩
  split at hres
  · cases hres
    exact ⟨rfl, rfl⟩
  · cases hres

/-- The complete horizontal pass: a tile-sized body that starts clear of
every solid rect and moves at most one tile horizontally ends the pass
clear of every solid rect of the grid. -/
theorem xPass_no_overlap (tm : Tilemap) (hts : 1 ≤ tm.tile_size)
    (hnodup : (tm.tilemap.map Prod.fst).Nodup)
    (hwf : ∀ en ∈ tm.tilemap, en.2.pos = en.1)
    (w h : ℤ) (hw1 : 1 ≤ w) (hwts : w ≤ tm.tile_size)
    (hh1 : 1 ≤ h) (hhts : h ≤ tm.tile_size)
    (p0 posy fmx : ℚ) (hfm : |fmx| ≤ (tm.tile_size : ℚ))
    (hstart : ∀ R ∈ tm.allSolidRects,
      collideRect ⟨ratTrunc p0, ratTrunc posy, w, h⟩ R = false) :
    (∀ R ∈ tm.allSolidRects,
      collideRect ((tm.Physics_Rects_Around (p0 + fmx, posy)).foldl (xStep fmx)
        ⟨⟨ratTrunc (p0 + fmx), ratTrunc posy, w, h⟩, p0 + fmx, false, false⟩).er R = false)
    ∧ ratTrunc ((tm.Physics_Rects_Around (p0 + fmx, posy)).foldl (xStep fmx)
        ⟨⟨ratTrunc (p0 + fmx), ratTrunc posy, w, h⟩, p0 + fmx, false, false⟩).posx
      = ((tm.Physics_Rects_Around (p0 + fmx, posy)).foldl (xStep fmx)
        ⟨⟨ratTrunc (p0 + fmx), ratTrunc posy, w, h⟩, p0 + fmx, false, false⟩).er.x
    ∧ ((tm.Physics_Rects_Around (p0 + fmx, posy)).foldl (xStep fmx)
        ⟨⟨ratTrunc (p0 + fmx), ratTrunc posy, w, h⟩, p0 + fmx, false, false⟩).er.y
      = ratTrunc posy
    ∧ ((tm.Physics_Rects_Around (p0 + fmx, posy)).foldl (xStep fmx)
        ⟨⟨ratTrunc (p0 + fmx), ratTrunc posy, w, h⟩, p0 + fmx, false, false⟩).er.w = w
    ∧ ((tm.Physics_Rects_Around (p0 + fmx, posy)).foldl (xStep fmx)
        ⟨⟨ratTrunc (p0 + fmx), ratTrunc posy, w, h⟩, p0 + fmx, false, false⟩).er.h = h := by
  set ts := tm.tile_size with hts_def
  set xs := ratTrunc p0 with hxs_def
  set xm := ratTrunc (p0 + fmx) with hxm_def
  set y := ratTrunc posy with hy_def
  have hts0 : (0 : ℤ) ≤ ts := by omega
  have hdisp : |xm - xs| ≤ ts := abs_ratTrunc_add_le p0 fmx ts hts0 hfm
  have hpos : 0 < fmx → xs ≤ xm := fun hf => ratTrunc_mono (by linarith)
  have hneg : fmx < 0 → xm ≤ xs := fun hf => ratTrunc_mono (by linarith)
  have hzero : fmx = 0 → xm = xs := by
    intro hf
    rw [hxm_def, hf, add_zero]
  have hL : ∀ r ∈ tm.Physics_Rects_Around (p0 + fmx, posy),
      r.w = ts ∧ r.h = ts ∧ collideRect ⟨xs, y, w, h⟩ r = false := by
    intro r hr
    have hsz := physicsRects_size tm (p0 + fmx, posy) r hr
    exact ⟨hsz.1, hsz.2, hstart r (physicsRects_subset_allSolid tm (p0 + fmx, posy) r hr)⟩
  have hInv0 : xInv xs xm y w h ⟨⟨xm, y, w, h⟩, p0 + fmx, false, false⟩ :=
    ⟨rfl, rfl, rfl, rfl, min_le_right xs xm, le_max_right xs xm⟩
  obtain ⟨⟨hI1, hI2, hI3, hI4, hI5, hI6⟩, hLclear, hpres⟩ :=
    xPass_fold fmx ts w h y xs xm hw1 hdisp hpos hneg hzero
      (tm.Physics_Rects_Around (p0 + fmx, posy))
      ⟨⟨xm, y, w, h⟩, p0 + fmx, false, false⟩ hL hInv0
  refine ⟨?_, hI1, hI2, hI3, hI4⟩
  intro R hR
  by_cases hRL : R ∈ tm.Physics_Rects_Around (p0 + fmx, posy)
  · exact hLclear R hRL
  · have hmoved : collideRect ⟨xm, y, w, h⟩ R = false := by
      by_contra hc
      rw [Bool.not_eq_false] at hc
      exact hRL (collide_mem_query tm hts hnodup hwf w h hw1 hwts hh1 hhts
        (p0 + fmx) posy R hR hc)
    have hstartR := hstart R hR
    have hsz := (allSolidRects_size tm R hR).1
    have habs := abs_le.mp hdisp
    obtain ⟨Rx, Ry, Rw, Rh⟩ := R
    dsimp only at hsz
    rw [collideRect_false_iff] at hstartR hmoved ⊢
    dsimp only at hstartR hmoved ⊢
    omega

/-- Transpose a rect (swap the two axes).  The vertical loop is exactly the
horizontal loop conjugated by this involution. -/
def IRect.sw (r : IRect) : IRect := ⟨r.y, r.x, r.h, r.w⟩

theorem IRect.sw_sw (r : IRect) : r.sw.sw = r := rfl

theorem collideRect_sw (a b : IRect) : collideRect a.sw b.sw = collideRect a b := by
  unfold collideRect IRect.sw
  dsimp only
  cases decide (a.x < b.x + b.w) <;> cases decide (a.x + a.w > b.x) <;>
    cases decide (a.y < b.y + b.h) <;> cases decide (a.y + a.h > b.y) <;> rfl

/-- A y-loop state viewed as an x-loop state on the transposed rects. -/
def YState.swap (s : YState) : XState := ⟨s.er.sw, s.posy, s.cdown, s.cup⟩

def XState.swap (s : XState) : YState := ⟨s.er.sw, s.posx, s.cright, s.cleft⟩

theorem yStep_eq_swap (fmy : ℚ) (s : YState) (r : IRect) :
    yStep fmy s r = (xStep fmy s.swap r.sw).swap := by
  unfold yStep xStep YState.swap XState.swap
  rw [collideRect_sw]
  by_cases hcol : collideRect s.er r = true
  · rw [if_pos hcol, if_pos hcol]
    by_cases h1 : fmy > 0 <;> by_cases h2 : fmy < 0 <;>
      simp [h1, h2, IRect.sw]
  · rw [Bool.not_eq_true] at hcol
    rw [if_neg (by rw [hcol]; exact Bool.false_ne_true),
      if_neg (by rw [hcol]; exact Bool.false_ne_true)]
    cases s
    rfl

theorem yfold_eq_swap (fmy : ℚ) : ∀ (L : List IRect) (s : YState),
    L.foldl (yStep fmy) s = ((L.map IRect.sw).foldl (xStep fmy) s.swap).swap := by
  intro L
  induction L with
  | nil =>
    intro s
    cases s
    rfl
  | cons r rest ih =>
    intro s
    rw [List.foldl_cons, List.map_cons, List.foldl_cons, ih, yStep_eq_swap]
    have : (xStep fmy s.swap r.sw).swap.swap = xStep fmy s.swap r.sw := by
      unfold XState.swap YState.swap
      dsimp only
      rw [IRect.sw_sw]
    rw [this]

/-- The complete vertical pass, obtained from the horizontal one by
transposition. -/
theorem yPass_no_overlap (tm : Tilemap) (hts : 1 ≤ tm.tile_size)
    (hnodup : (tm.tilemap.map Prod.fst).Nodup)
    (hwf : ∀ en ∈ tm.tilemap, en.2.pos = en.1)
    (w h : ℤ) (hw1 : 1 ≤ w) (hwts : w ≤ tm.tile_size)
    (hh1 : 1 ≤ h) (hhts : h ≤ tm.tile_size)
    (posx p0 fmy : ℚ) (hfm : |fmy| ≤ (tm.tile_size : ℚ))
    (hstart : ∀ R ∈ tm.allSolidRects,
      collideRect ⟨ratTrunc posx, ratTrunc p0, w, h⟩ R = false) :
    (∀ R ∈ tm.allSolidRects,
      collideRect ((tm.Physics_Rects_Around (posx, p0 + fmy)).foldl (yStep fmy)
        ⟨⟨ratTrunc posx, ratTrunc (p0 + fmy), w, h⟩, p0 + fmy, false, false⟩).er R = false)
    ∧ ratTrunc ((tm.Physics_Rects_Around (posx, p0 + fmy)).foldl (yStep fmy)
        ⟨⟨ratTrunc posx, ratTrunc (p0 + fmy), w, h⟩, p0 + fmy, false, false⟩).posy
      = ((tm.Physics_Rects_Around (posx, p0 + fmy)).foldl (yStep fmy)
        ⟨⟨ratTrunc posx, ratTrunc (p0 + fmy), w, h⟩, p0 + fmy, false, false⟩).er.y
    ∧ ((tm.Physics_Rects_Around (posx, p0 + fmy)).foldl (yStep fmy)
        ⟨⟨ratTrunc posx, ratTrunc (p0 + fmy), w, h⟩, p0 + fmy, false, false⟩).er.x
      = ratTrunc posx
    ∧ ((tm.Physics_Rects_Around (posx, p0 + fmy)).foldl (yStep fmy)
        ⟨⟨ratTrunc posx, ratTrunc (p0 + fmy), w, h⟩, p0 + fmy, false, false⟩).er.w = w
    ∧ ((tm.Physics_Rects_Around (posx, p0 + fmy)).foldl (yStep fmy)
        ⟨⟨ratTrunc posx, ratTrunc (p0 + fmy), w, h⟩, p0 + fmy, false, false⟩).er.h = h := by
  set ts := tm.tile_size with hts_def
  set ys := ratTrunc p0 with hys_def
  set ym := ratTrunc (p0 + fmy) with hym_def
  set x := ratTrunc posx with hx_def
  have hts0 : (0 : ℤ) ≤ ts := by omega
  have hdisp : |ym - ys| ≤ ts := abs_ratTrunc_add_le p0 fmy ts hts0 hfm
  have hpos : 0 < fmy → ys ≤ ym := fun hf => ratTrunc_mono (by linarith)
  have hneg : fmy < 0 → ym ≤ ys := fun hf => ratTrunc_mono (by linarith)
  have hzero : fmy = 0 → ym = ys := by
    intro hf
    rw [hym_def, hf, add_zero]
  have hL : ∀ r' ∈ (tm.Physics_Rects_Around (posx, p0 + fmy)).map IRect.sw,
      r'.w = ts ∧ r'.h = ts ∧ collideRect ⟨ys, x, h, w⟩ r' = false := by
    intro r' hr'
    rcases List.mem_map.mp hr' with ⟨r, hr, hr'eq⟩
    subst hr'eq
    have hsz := physicsRects_size tm (posx, p0 + fmy) r hr
    refine ⟨by rw [IRect.sw]; exact hsz.2, by rw [IRect.sw]; exact hsz.1, ?_⟩
    have : (⟨ys, x, h, w⟩ : IRect) = (⟨x, ys, w, h⟩ : IRect).sw := rfl
    rw [this, collideRect_sw]
    exact hstart r (physicsRects_subset_allSolid tm (posx, p0 + fmy) r hr)
  have hInv0 : xInv ys ym x h w ⟨⟨ym, x, h, w⟩, p0 + fmy, false, false⟩ :=
    ⟨rfl, rfl, rfl, rfl, min_le_right ys ym, le_max_right ys ym⟩
  obtain ⟨⟨hI1, hI2, hI3, hI4, hI5, hI6⟩, hLclear, hpres⟩ :=
    xPass_fold fmy ts h w x ys ym hh1 hdisp hpos hneg hzero
      ((tm.Physics_Rects_Around (posx, p0 + fmy)).map IRect.sw)
      ⟨⟨ym, x, h, w⟩, p0 + fmy, false, false⟩ hL hInv0
  have hfold : (tm.Physics_Rects_Around (posx, p0 + fmy)).foldl (yStep fmy)
      ⟨⟨x, ym, w, h⟩, p0 + fmy, false, false⟩
      = (((tm.Physics_Rects_Around (posx, p0 + fmy)).map IRect.sw).foldl (xStep fmy)
        ⟨⟨ym, x, h, w⟩, p0 + fmy, false, false⟩).swap := by
    rw [yfold_eq_swap]
    rfl
  rw [hfold]
  refine ⟨?_, ?_, ?_, ?_, ?_⟩
  · intro R hR
    show collideRect (XState.swap _).er R = false
    unfold XState.swap
    dsimp only
    rw [← IRect.sw_sw R, collideRect_sw]
    by_cases hRL : R ∈ tm.Physics_Rects_Around (posx, p0 + fmy)
    · exact hLclear R.sw (List.mem_map_of_mem IRect.sw hRL)
    · have hmoved : collideRect ⟨x, ym, w, h⟩ R = false := by
        by_contra hc
        rw [Bool.not_eq_false] at hc
        exact hRL (collide_mem_query tm hts hnodup hwf w h hw1 hwts hh1 hhts
          posx (p0 + fmy) R hR hc)
      have hstartR := hstart R hR
      have hsz := allSolidRects_size tm R hR
      have habs := abs_le.mp hdisp
      have hmoved' : collideRect ⟨ym, x, h, w⟩ R.sw = false := by
        have : (⟨ym, x, h, w⟩ : IRect) = (⟨x, ym, w, h⟩ : IRect).sw := rfl
        rw [this, collideRect_sw]
        exact hmoved
      have hstartR' : collideRect ⟨ys, x, h, w⟩ R.sw = false := by
        have : (⟨ys, x, h, w⟩ : IRect) = (⟨x, ys, w, h⟩ : IRect).sw := rfl
        rw [this, collideRect_sw]
        exact hstartR
      obtain ⟨Rx, Ry, Rw, Rh⟩ := R
      have hswR : (⟨Rx, Ry, Rw, Rh⟩ : IRect).sw = ⟨Ry, Rx, Rh, Rw⟩ := rfl
      rw [hswR] at hmoved' hstartR' ⊢
      rw [collideRect_false_iff] at hmoved' hstartR' ⊢
      dsimp only at hmoved' hstartR' ⊢
      dsimp only at hsz
      omega
  · show ratTrunc (XState.swap _).posy = (XState.swap _).er.y
    unfold XState.swap IRect.sw
    dsimp only
    exact hI1
  · show (XState.swap _).er.x = x
    unfold XState.swap IRect.sw
    dsimp only
    exact hI2
  · show (XState.swap _).er.w = w
    unfold XState.swap IRect.sw
    dsimp only
    exact hI4
  · show (XState.swap _).er.h = h
    unfold XState.swap IRect.sw
    dsimp only
    exact hI3

theorem collideRect_congr_left (a a' b : IRect) (hx : a.x = a'.x) (hy : a.y = a'.y)
    (hw : a.w = a'.w) (hh : a.h = a'.h) : collideRect a b = collideRect a' b := by
  unfold collideRect
  rw [hx, hy, hw, hh]

/-- Claim C1, amended: for a tilemap whose grid keys are distinct and agree
with each record's pos, and a body whose rect is between 1 and tile_size on
each axis, if the body's rect starts clear of every solid tile rect and
each frame-movement component (movement + velocity) is at most one tile,
then after one Update the body's rect overlaps no solid tile rect. -/
theorem claim_C1_amended (tm : Tilemap) (e : Entity) (mv : ℚ × ℚ)
    (hts : 1 ≤ tm.tile_size)
    (hnodup : (tm.tilemap.map Prod.fst).Nodup)
    (hwf : ∀ en ∈ tm.tilemap, en.2.pos = en.1)
    (hw1 : 1 ≤ ratTrunc e.size.1) (hwts : ratTrunc e.size.1 ≤ tm.tile_size)
    (hh1 : 1 ≤ ratTrunc e.size.2) (hhts : ratTrunc e.size.2 ≤ tm.tile_size)
    (hfmx : |mv.1 + e.velocity.1| ≤ (tm.tile_size : ℚ))
    (hfmy : |mv.2 + e.velocity.2| ≤ (tm.tile_size : ℚ))
    (hstart : ∀ R ∈ tm.allSolidRects, collideRect e.Rect R = false) :
    ∀ R ∈ tm.allSolidRects, collideRect (e.Update tm mv).Rect R = false := by
  obtain ⟨hxClear, hx1, hx2, hx3, hx4⟩ :=
    xPass_no_overlap tm hts hnodup hwf (ratTrunc e.size.1) (ratTrunc e.size.2)
      hw1 hwts hh1 hhts e.pos.1 e.pos.2 (mv.1 + e.velocity.1) hfmx hstart
  have hstartY : ∀ R ∈ tm.allSolidRects,
      collideRect ⟨ratTrunc ((tm.Physics_Rects_Around
          (e.pos.1 + (mv.1 + e.velocity.1), e.pos.2)).foldl (xStep (mv.1 + e.velocity.1))
          ⟨⟨ratTrunc (e.pos.1 + (mv.1 + e.velocity.1)), ratTrunc e.pos.2,
            ratTrunc e.size.1, ratTrunc e.size.2⟩,
           e.pos.1 + (mv.1 + e.velocity.1), false, false⟩).posx,
        ratTrunc e.pos.2, ratTrunc e.size.1, ratTrunc e.size.2⟩ R = false := by
    intro R hR
    exact (collideRect_congr_left _ _ R hx1 hx2.symm hx3.symm hx4.symm).trans (hxClear R hR)
  obtain ⟨hyClear, hy1, hy2, hy3, hy4⟩ :=
    yPass_no_overlap tm hts hnodup hwf (ratTrunc e.size.1) (ratTrunc e.size.2)
      hw1 hwts hh1 hhts
      ((tm.Physics_Rects_Around
          (e.pos.1 + (mv.1 + e.velocity.1), e.pos.2)).foldl (xStep (mv.1 + e.velocity.1))
          ⟨⟨ratTrunc (e.pos.1 + (mv.1 + e.velocity.1)), ratTrunc e.pos.2,
            ratTrunc e.size.1, ratTrunc e.size.2⟩,
           e.pos.1 + (mv.1 + e.velocity.1), false, false⟩).posx
      e.pos.2 (mv.2 + e.velocity.2) hfmy hstartY
  intro R hR
  unfold Entity.Update
  dsimp only
  unfold Entity.Rect
  dsimp only
  exact (collideRect_congr_left _ _ R hy2.symm hy1 hy3.symm hy4.symm).trans (hyClear R hR)

/-- Counterexample to claim C1 as stated: a one-tile body already embedded
in a solid tile, with zero velocity and zero movement, is still embedded
after Update — the pass only clamps when the frame movement on the axis is
nonzero, so no separation ever happens. -/
theorem claim_C1_counterexample :
    tileRect 16 (0, 0) ∈ (Tilemap.mk 16 [((0, 0), ⟨"grass", 1, (0, 0)⟩)] []).allSolidRects
    ∧ collideRect
        ((Entity.mk (0, 0) (16, 16) (0, 0) ⟨false, false, false, false⟩ false (0, 0)).Update
          (Tilemap.mk 16 [((0, 0), ⟨"grass", 1, (0, 0)⟩)] []) (0, 0)).Rect
        (tileRect 16 (0, 0)) = true := by
  constructor
  · with_unfolding_all decide
  · with_unfolding_all decide

/-- The concrete scenario of claim C1's witness. -/
def c1Map : Tilemap :=
  ⟨16, [((1, 0), ⟨"stone", 0, (1, 0)⟩), ((0, 1), ⟨"grass", 3, (0, 1)⟩)], []⟩

def c1Body : Entity :=
  ⟨(-3/2, -17), (16, 16), (2, 3), ⟨false, false, false, false⟩, false, (0, 0)⟩

/-- Witness for the amended claim C1 at a concrete map and body. -/
theorem claim_C1_witness :
    (∀ R ∈ c1Map.allSolidRects, collideRect c1Body.Rect R = false)
    ∧ (∀ R ∈ c1Map.allSolidRects,
        collideRect (c1Body.Update c1Map (1, 0)).Rect R = false) :=
  ⟨by with_unfolding_all decide,
   claim_C1_amended c1Map c1Body (1, 0) (by decide) (by decide) (by decide)
     (by with_unfolding_all decide) (by with_unfolding_all decide)
     (by with_unfolding_all decide) (by with_unfolding_all decide)
     (by with_unfolding_all decide) (by with_unfolding_all decide)
     (by with_unfolding_all decide)⟩

end Platformer
